import Mathlib

/-!
Verification of the electromagnetic interaction-rate precomputation pipeline
(`calc_electromagnetic.py`).  The Python source is shallowly embedded below:
floating-point arithmetic is modelled by exact real arithmetic (`ℝ`),
`numpy` grids become `List ℝ`, the on-disk cache becomes an explicit
name-indexed store, and Python exceptions become an `Except` error type.
External library calls (`scipy.integrate.quad`, `np.interp`, `np.logspace`)
are embedded through their documented semantics.
-/

open Real

/-- Elementary charge in Joule per eV (source line 9). -/
noncomputable def eV : ℝ := 1.60217657e-19

/-- Squared electron mass, `(510.998918e3 * eV) ** 2` (source line 10). -/
noncomputable def me2 : ℝ := (510.998918e3 * eV) ^ 2

/-- Thomson cross section in m^2 (source line 11). -/
noncomputable def sigmaThomson : ℝ := 6.6524e-29

/-- Fine structure constant (source line 12). -/
noncomputable def alpha : ℝ := 1 / 137.035999074

/-- Embedding of `np.log1p`: `log1p x = log (1 + x)`. -/
noncomputable def log1p (x : ℝ) : ℝ := Real.log (1 + x)

/-- Pair production cross section (Breit-Wheeler), source lines 15-22. -/
noncomputable def sigmaPP (s : ℝ) : ℝ :=
  if s < 4 * me2 then 0
  else
    let b := Real.sqrt (1 - 4 * me2 / s)
    sigmaThomson * 3 / 16 * (1 - b ^ 2) *
      ((3 - b ^ 4) * (log1p b - log1p (-b)) - 2 * b * (2 - b ^ 2))

/-- Double-pair production cross section, source lines 25-31. -/
noncomputable def sigmaDPP (s : ℝ) : ℝ :=
  if s < 16 * me2 then 0
  else 6.45e-34 * (1 - 16 * me2 / s) ^ 6

/-- Inverse Compton scattering cross section, source lines 34-44.
Note: real division makes this definition total (`x / 0 = 0`), whereas the
source divides by `b = 0` at `s = me2`; `sigmaICSchecked` below models the
checked Python float-division semantics of the same body. -/
noncomputable def sigmaICS (s : ℝ) : ℝ :=
  if s < me2 then 0
  else
    let b := (s - me2) / (s + me2)
    let A := 2 / b / (1 + b) * (2 + 2 * b - b ^ 2 - 2 * b ^ 3)
    let B := (2 - 3 * b ^ 2 - b ^ 3) / b ^ 2 * (log1p b - log1p (-b))
    sigmaThomson * 3 / 8 * me2 / s / b * (A - B)

/-- Triplet-pair production cross section, source lines 47-53. -/
noncomputable def sigmaTPP (s : ℝ) : ℝ :=
  let beta := 28 / 9 * Real.log (s / me2) - 218 / 27
  if beta < 0 then 0
  else sigmaThomson * 3 / 8 / Real.pi * alpha * beta

/-- Selector universe for the identity-based dispatch of the source:
the four catalogued cross-section functions, plus arbitrary further function
objects (`unknown k`) that are none of the four. -/
inductive ProcName where
  | PP
  | DPP
  | ICS
  | TPP
  | unknown (k : ℕ)
deriving DecidableEq

/-- Result of `getTabulatedXS`: either a table of cross sections or the
Python literal `False` returned on the fall-through path (source line 62). -/
inductive XSTable where
  | table (xs : List ℝ)
  | pyFalse

/-- Python runtime errors raised by the script. -/
inductive PyError where
  | keyError
  | indexError
  | zeroDivisionError
deriving DecidableEq

/-- Embedding of `getTabulatedXS` (source lines 56-62): photon interactions
are evaluated on `skin` itself, electron interactions on `skin + me2`;
any selector outside the catalogue returns the literal `False`. -/
noncomputable def getTabulatedXS (sigma : ProcName) (skin : List ℝ) : XSTable :=
  match sigma with
  | .PP => .table (skin.map sigmaPP)
  | .DPP => .table (skin.map sigmaDPP)
  | .TPP => .table (skin.map fun s => sigmaTPP (s + me2))
  | .ICS => .table (skin.map fun s => sigmaICS (s + me2))
  | .unknown _ => .pyFalse

/-- Embedding of `getSmin` (source lines 65-71): a Python dict literal
subscripted with the selector; a selector that is not a key raises `KeyError`. -/
noncomputable def getSmin (sigma : ProcName) : Except PyError ℝ :=
  match sigma with
  | .PP => .ok (4 * me2)
  | .DPP => .ok (16 * me2)
  | .TPP => .ok (Real.exp ((218 / 27) / (28 / 9)) * me2 - me2)
  | .ICS => .ok (1e-40 * me2)
  | .unknown _ => .error .keyError

/-- Photon field adapter (external collaborator `photonField`): a stable name,
a density function, and the bounds of its photon-energy interval. -/
structure PhotonField where
  name : String
  getDensity : ℝ → ℝ
  getEmin : ℝ
  getEmax : ℝ

/-- Embedding of `getEmin` (source lines 74-76):
`getSmin(sigma) / 4 / field.getEmax()`. -/
noncomputable def getEmin (sigma : ProcName) (field : PhotonField) : Except PyError ℝ :=
  (getSmin sigma).map fun smin => smin / 4 / field.getEmax

/-- Embedding of `np.logspace a b n`: `n` log-spaced points from `10 ^ a`
to `10 ^ b` inclusive. -/
noncomputable def logspace (a b : ℝ) (n : ℕ) : List ℝ :=
  (List.range n).map fun i : ℕ => (10 : ℝ) ^ (a + (b - a) * (i : ℝ) / ((n : ℝ) - 1))

/-- The base particle-energy grid `np.logspace(9, 23, 281) * eV`
(source line 123). -/
noncomputable def baseEnergyGrid : List ℝ :=
  (logspace 9 23 281).map (· * eV)

/-- Energy grid used by `process` (source lines 122-124): the base grid
restricted to energies strictly above `Emin = getEmin(sigma, field)`. -/
noncomputable def processEnergyGrid (sigma : ProcName) (field : PhotonField) :
    Except PyError (List ℝ) :=
  (getEmin sigma field).map fun Emin =>
    baseEnergyGrid.filter fun e => decide (Emin < e)

/-- Adaptive-quadrature backend standing for `scipy.integrate.quad` with
`full_output=1`: `eval f a b` returns the integral estimate (`quad(...)[0]`)
together with the convergence flag the full output carries. -/
structure QuadEngine where
  eval : (ℝ → ℝ) → ℝ → ℝ → ℝ × Bool

/-- Mathematical semantics of a converged `scipy.integrate.quad` call:
the exact integral, flagged as converged. -/
noncomputable def scipyQuad : QuadEngine :=
  ⟨fun f a b => (∫ x in a..b, f x, true)⟩

/-- Integrand of the density integral, `field.getDensity E / E ** 2`
(source lines 97-98). -/
noncomputable def densityIntegrand (field : PhotonField) (E : ℝ) : ℝ :=
  field.getDensity E / E ^ 2

/-- Fixed global lower bound `1e4 / 4 / 1e23 * eV` of the density-integral
grid (source line 85). -/
noncomputable def densityEmin : ℝ := 1e4 / 4 / 1e23 * eV

/-- Grid of lower bounds `np.logspace(log10(Emin), log10(Emax), 10000)`
(source line 86). -/
noncomputable def densityAlphaGrid (field : PhotonField) : List ℝ :=
  logspace (Real.logb 10 densityEmin) (Real.logb 10 field.getEmax) 10000

/-- The density-integral table (source lines 99-101, 111): for each lower
bound `a` of the grid, the pair `(a, quad(integrand, a, Emax)[0])`.  The
quadrature backend `Q` is the embedding of the `scipy.integrate.quad` call. -/
noncomputable def densityIntegralTable (Q : QuadEngine) (field : PhotonField) :
    List (ℝ × ℝ) :=
  (densityAlphaGrid field).map fun a =>
    (a, (Q.eval (densityIntegrand field) a field.getEmax).1)

/-- The persisted-file store `data/fieldDensity/<name>.txt`, modelled as a
map from field names to persisted tables. -/
def FileStore : Type := String → Option (List (ℝ × ℝ))

/-- Embedding of `calculateDensityIntegral` (source lines 78-113): if a file
for `field.name` already exists the function returns with no computation;
otherwise it computes the table and persists it under `field.name`. -/
noncomputable def calculateDensityIntegral (Q : QuadEngine) (field : PhotonField)
    (fs : FileStore) : FileStore :=
  if (fs field.name).isSome then fs
  else fun n => if n = field.name then some (densityIntegralTable Q field) else fs n

/-- Embedding of `process` lines 158-161.  The preceding scalar-rate step
calls `interactionRate.calc_rate_s`, whose module is missing from `src/`;
it is modelled from the spec (section 4.3: the engine computes one rate per
particle energy and raises nothing), so control reaches line 160, where
`E[0]` raises `IndexError` when the filtered energy grid is empty. -/
noncomputable def processSkinMin (sigma : ProcName) (field : PhotonField) :
    Except PyError ℝ := do
  let E ← processEnergyGrid sigma field
  let skin1 ← getSmin sigma
  match E with
  | [] => Except.error PyError.indexError
  | e0 :: _ => pure (max skin1 (4 * field.getEmin * e0))

/-- Embedding of `np.interp x xp fp` on the zipped node list `xp.zip fp`
(for increasing `xp`): clamp to the first value left of the grid, linearly
interpolate on each bracketing segment, clamp to the last value right of
the grid. -/
noncomputable def interp (x : ℝ) : List (ℝ × ℝ) → ℝ
  | [] => 0
  | [(_, y0)] => y0
  | (x0, y0) :: (x1, y1) :: rest =>
    if x < x0 then y0
    else if x ≤ x1 then y0 + (y1 - y0) * (x - x0) / (x1 - x0)
    else interp x ((x1, y1) :: rest)

/-- Downsampling step of `process` (source line 174): one row of
`np.interp(skin_save, skin, r)`. -/
noncomputable def downsampleRow (skin_save skin r : List ℝ) : List ℝ :=
  skin_save.map fun x => interp x (skin.zip r)

/-- High-resolution `s_kin` grid `np.logspace(4, 23, 380000 + 1) * eV**2`
(source line 165). -/
noncomputable def skinFineGrid : List ℝ :=
  (logspace 4 23 (380000 + 1)).map (· * eV ^ 2)

/-- Coarse `s_kin` grid `np.logspace(4, 23, 190 + 1) * eV**2`
(source line 172). -/
noncomputable def skinSaveGrid : List ℝ :=
  (logspace 4 23 (190 + 1)).map (· * eV ^ 2)

/-- Fine grid after the threshold filter `skin[skin > skin_min]`
(source line 166). -/
noncomputable def skinFineFiltered (skin_min : ℝ) : List ℝ :=
  skinFineGrid.filter fun x => decide (skin_min < x)

/-- Coarse grid after the threshold filter `skin_save[skin_save > skin_min]`
(source line 173). -/
noncomputable def skinSaveFiltered (skin_min : ℝ) : List ℝ :=
  skinSaveGrid.filter fun x => decide (skin_min < x)

/-- Demonstration field used by witnesses: zero density, energy range up to 1. -/
noncomputable def demoField : PhotonField := ⟨"CMB", fun _ => 0, 0, 1⟩

/-- Store that already holds a persisted table for the name "CMB". -/
noncomputable def demoStore : FileStore := fun n => if n = "CMB" then some [] else none

/-- Store with no persisted tables. -/
def emptyStore : FileStore := fun _ => none

/-- Quadrature backend returning the fixed estimate `v` with convergence flag `c`
for every requested integral. -/
noncomputable def constQuad (v : ℝ) (c : Bool) : QuadEngine := ⟨fun _ _ _ => (v, c)⟩

/-- Reference form of the pair-production cross section, written with the
direct logarithm `log((1+b)/(1-b))` named by the spec, for comparison with
the stable form used in `sigmaPP`. -/
noncomputable def sigmaPP_direct (s : ℝ) : ℝ :=
  if s < 4 * me2 then 0
  else
    let b := Real.sqrt (1 - 4 * me2 / s)
    sigmaThomson * 3 / 16 * (1 - b ^ 2) *
      ((3 - b ^ 4) * Real.log ((1 + b) / (1 - b)) - 2 * b * (2 - b ^ 2))

/-- Field whose maximum photon energy is so small that every base-grid energy
is below `E_min` for pair production. -/
noncomputable def tinyField : PhotonField := ⟨"tiny", fun _ => 0, 0, 1e-45⟩

/-- Inverse Compton scattering cross section with Python float-division
semantics: the body of `sigmaICS` (source lines 34-44) raises
`ZeroDivisionError` whenever one of its divisors (`s + me2` for `b`, then
`b`, `1 + b`, `b ** 2` and `s`) vanishes, instead of the total real
convention `x / 0 = 0`. -/
noncomputable def sigmaICSchecked (s : ℝ) : Except PyError ℝ :=
  if s < me2 then Except.ok 0
  else if s + me2 = 0 then Except.error PyError.zeroDivisionError
  else
    let b := (s - me2) / (s + me2)
    if b = 0 ∨ 1 + b = 0 ∨ b ^ 2 = 0 ∨ s = 0 then
      Except.error PyError.zeroDivisionError
    else
      let A := 2 / b / (1 + b) * (2 + 2 * b - b ^ 2 - 2 * b ^ 3)
      let B := (2 - 3 * b ^ 2 - b ^ 3) / b ^ 2 * (log1p b - log1p (-b))
      Except.ok (sigmaThomson * 3 / 8 * me2 / s / b * (A - B))

/-- C2 counterexample: at the concrete uncatalogued selector `unknown 0`,
`getTabulatedXS` returns the Python sentinel `False` and `getSmin` raises a
plain dictionary `KeyError`; no `UnknownProcess` error exists in the code. -/
theorem getTabulatedXS_unknown_cex :
    getTabulatedXS (.unknown 0) [1] = .pyFalse ∧
    getSmin (.unknown 0) = .error .keyError :=
  ⟨rfl, rfl⟩

/-- C2 (amended): for every selector that is not one of the four catalogued
cross sections, `getTabulatedXS` returns the sentinel `False` and `getSmin`
fails with the dictionary lookup error `KeyError`. -/
theorem getTabulatedXS_getSmin_unknown (k : ℕ) (skin : List ℝ) :
    getTabulatedXS (.unknown k) skin = .pyFalse ∧
    getSmin (.unknown k) = .error .keyError :=
  ⟨rfl, rfl⟩

/-- C2 witness: the amended statement at the concrete selector `unknown 7`. -/
theorem getTabulatedXS_getSmin_unknown_witness :
    getTabulatedXS (.unknown 7) [0] = .pyFalse ∧
    getSmin (.unknown 7) = .error .keyError :=
  getTabulatedXS_getSmin_unknown 7 [0]

/-- C3: the density-integral cache build is idempotent per field name: when a
persisted entry for the field's name already exists the call leaves the store
unchanged (no recomputation), and invoking the build twice yields the same
store as invoking it once. -/
theorem calculateDensityIntegral_idempotent (Q : QuadEngine) (field : PhotonField)
    (fs : FileStore) :
    ((fs field.name).isSome → calculateDensityIntegral Q field fs = fs) ∧
    calculateDensityIntegral Q field (calculateDensityIntegral Q field fs) =
      calculateDensityIntegral Q field fs := by
  constructor
  · intro h
    unfold calculateDensityIntegral
    rw [if_pos h]
  · by_cases h : (fs field.name).isSome
    · unfold calculateDensityIntegral
      rw [if_pos h, if_pos h]
    · unfold calculateDensityIntegral
      rw [if_neg h]
      have h2 : (((fun n => if n = field.name then some (densityIntegralTable Q field)
          else fs n) : FileStore) field.name).isSome := by simp
      rw [if_pos h2]

/-- C3 witness: at a concrete field and a store that already holds an entry
for its name. -/
theorem calculateDensityIntegral_idempotent_witness :
    (calculateDensityIntegral scipyQuad demoField demoStore = demoStore) ∧
    calculateDensityIntegral scipyQuad demoField
        (calculateDensityIntegral scipyQuad demoField demoStore) =
      calculateDensityIntegral scipyQuad demoField demoStore :=
  ⟨(calculateDensityIntegral_idempotent scipyQuad demoField demoStore).1
      (by simp [demoStore, demoField]),
   (calculateDensityIntegral_idempotent scipyQuad demoField demoStore).2⟩

/-- C4 counterexample: with a quadrature backend that reports non-convergence
for every bound (flag `false`) and returns the estimate `42`, the engine still
stores `42` in every entry of the table and persists it; no
`IntegrationFailure` is surfaced. -/
theorem densityIntegral_no_integration_failure_cex :
    (∀ f : ℝ → ℝ, ∀ a b : ℝ, ((constQuad 42 false).eval f a b).2 = false) ∧
    (∀ pr ∈ densityIntegralTable (constQuad 42 false) demoField, pr.2 = (42 : ℝ)) ∧
    calculateDensityIntegral (constQuad 42 false) demoField emptyStore demoField.name
      = some (densityIntegralTable (constQuad 42 false) demoField) := by
  refine ⟨fun _ _ _ => rfl, ?_, ?_⟩
  · intro pr hpr
    simp only [densityIntegralTable, List.mem_map] at hpr
    obtain ⟨a, -, rfl⟩ := hpr
    rfl
  · unfold calculateDensityIntegral
    rw [if_neg (by simp [emptyStore])]
    simp

/-- C4 (amended): the `full_output=1` call discards the convergence
information entirely — the persisted table depends only on the estimate
component of the quadrature backend, so a non-converged estimate is stored
like any other and no error is raised. -/
theorem densityIntegralTable_ignores_convergence (Q Qv : QuadEngine)
    (field : PhotonField)
    (h : ∀ f : ℝ → ℝ, ∀ a b : ℝ, (Q.eval f a b).1 = (Qv.eval f a b).1) :
    densityIntegralTable Q field = densityIntegralTable Qv field := by
  unfold densityIntegralTable
  have he : (fun a => (a, (Q.eval (densityIntegrand field) a field.getEmax).1))
      = fun a => ((a, (Qv.eval (densityIntegrand field) a field.getEmax).1) : ℝ × ℝ) :=
    funext fun a => by rw [h]
  rw [he]

/-- C4 witness: the amended statement at two concrete backends that differ
only in their convergence flag. -/
theorem densityIntegralTable_ignores_convergence_witness :
    densityIntegralTable (constQuad 42 false) demoField
      = densityIntegralTable (constQuad 42 true) demoField :=
  densityIntegralTable_ignores_convergence (constQuad 42 false) (constQuad 42 true)
    demoField (fun _ _ _ => rfl)

/-- C5: the particle-energy grid used by `process` is exactly the log-spaced
base grid restricted to energies strictly above
`E_min = getSmin(sigma) / 4 / field.getEmax()`; no energy at or below `E_min`
is retained. -/
theorem processEnergyGrid_filter (sigma : ProcName) (field : PhotonField) (Emin : ℝ)
    (h : getEmin sigma field = Except.ok Emin) :
    ∃ grid, processEnergyGrid sigma field = Except.ok grid ∧
      (∀ e : ℝ, e ∈ grid ↔ e ∈ baseEnergyGrid ∧ Emin < e) ∧
      ∀ e ∈ grid, ¬e ≤ Emin := by
  refine ⟨baseEnergyGrid.filter fun e => decide (Emin < e), ?_, ?_, ?_⟩
  · rw [processEnergyGrid, h]
    rfl
  · intro e
    simp [List.mem_filter]
  · intro e he
    rw [List.mem_filter] at he
    simpa using he.2

/-- C5 witness: at the pair-production selector and a concrete field. -/
theorem processEnergyGrid_filter_witness :
    ∃ grid, processEnergyGrid .PP demoField = Except.ok grid ∧
      (∀ e : ℝ, e ∈ grid ↔ e ∈ baseEnergyGrid ∧ 4 * me2 / 4 / 1 < e) ∧
      ∀ e ∈ grid, ¬e ≤ 4 * me2 / 4 / 1 :=
  processEnergyGrid_filter .PP demoField (4 * me2 / 4 / 1) rfl

lemma eV_pos : 0 < eV := by norm_num [eV]

lemma me2_pos : 0 < me2 := by
  rw [me2]
  have : (0:ℝ) < 510.998918e3 * eV := by
    have := eV_pos
    norm_num [eV] at this ⊢
  positivity

lemma sigmaThomson_pos : 0 < sigmaThomson := by norm_num [sigmaThomson]

lemma alpha_pos : 0 < alpha := by norm_num [alpha]

/-- Key analytic bound: `log x ≤ (x - x⁻¹) / 2` for `x ≥ 1`. -/
lemma log_le_half_sub_inv {x : ℝ} (hx : 1 ≤ x) : Real.log x ≤ (x - x⁻¹) / 2 := by
  set g : ℝ → ℝ := fun y => (y - y⁻¹) / 2 - Real.log y with hg
  have hder : ∀ y : ℝ, y ≠ 0 → HasDerivAt g ((1 - -(y ^ 2)⁻¹) / 2 - y⁻¹) y := by
    intro y hy0
    exact (((hasDerivAt_id y).sub (hasDerivAt_inv hy0)).div_const 2).sub
      (Real.hasDerivAt_log hy0)
  have hdiff : DifferentiableOn ℝ g (Set.Ici 1) := by
    intro y hy
    have hy0 : y ≠ 0 := by
      have : (1:ℝ) ≤ y := hy
      positivity
    exact (hder y hy0).differentiableAt.differentiableWithinAt
  have hmono : MonotoneOn g (Set.Ici 1) := by
    apply monotoneOn_of_deriv_nonneg (convex_Ici 1) hdiff.continuousOn
    · exact hdiff.mono interior_subset
    · intro y hy
      rw [interior_Ici] at hy
      have hy1 : (1:ℝ) < y := hy
      have hy0 : y ≠ 0 := by positivity
      rw [(hder y hy0).deriv]
      have hval : (1 - -(y ^ 2)⁻¹) / 2 - y⁻¹ = (y - 1) ^ 2 / (2 * y ^ 2) := by
        field_simp
        ring
      rw [hval]
      positivity
  have h1x : g 1 ≤ g x := hmono (Set.mem_Ici.2 le_rfl) (Set.mem_Ici.2 hx) hx
  have hg1 : g 1 = 0 := by simp [hg]
  rw [hg1] at h1x
  simp only [hg] at h1x
  linarith

/-- The stable logarithmic difference equals the direct logarithm on `[0, 1)`. -/
lemma log1p_sub_eq_log_div {b : ℝ} (hb0 : 0 ≤ b) (hb1 : b < 1) :
    log1p b - log1p (-b) = Real.log ((1 + b) / (1 - b)) := by
  have h1 : (0:ℝ) < 1 + b := by linarith
  have h2 : (0:ℝ) < 1 - b := by linarith
  rw [log1p, log1p, show (1:ℝ) + -b = 1 - b from by ring,
    ← Real.log_div (ne_of_gt h1) (ne_of_gt h2)]

/-- Upper bound on the logarithmic difference: `log1p b − log1p (−b) ≤ 2b/(1−b²)`. -/
lemma log1p_sub_le {b : ℝ} (hb0 : 0 ≤ b) (hb1 : b < 1) :
    log1p b - log1p (-b) ≤ 2 * b / (1 - b ^ 2) := by
  have h1 : (0:ℝ) < 1 + b := by linarith
  have h2 : (0:ℝ) < 1 - b := by linarith
  have hX : (1:ℝ) ≤ (1 + b) / (1 - b) := by
    rw [le_div_iff h2]; linarith
  rw [log1p_sub_eq_log_div hb0 hb1]
  calc Real.log ((1 + b) / (1 - b))
      ≤ ((1 + b) / (1 - b) - ((1 + b) / (1 - b))⁻¹) / 2 := log_le_half_sub_inv hX
    _ = 2 * b / (1 - b ^ 2) := by
        have h3 : (1:ℝ) - b ^ 2 ≠ 0 := by nlinarith
        rw [inv_div]
        field_simp
        ring

/-- Lower bound on the logarithmic difference: `2b/(1+b) ≤ log1p b − log1p (−b)`. -/
lemma le_log1p_sub {b : ℝ} (hb0 : 0 ≤ b) (hb1 : b < 1) :
    2 * b / (1 + b) ≤ log1p b - log1p (-b) := by
  have h1 : (0:ℝ) < 1 + b := by linarith
  have h2 : (0:ℝ) < 1 - b := by linarith
  have hX : (0:ℝ) < (1 + b) / (1 - b) := by positivity
  rw [log1p_sub_eq_log_div hb0 hb1]
  have := Real.one_sub_inv_le_log_of_pos hX
  have heq : 1 - ((1 + b) / (1 - b))⁻¹ = 2 * b / (1 + b) := by
    rw [inv_div]
    field_simp
    ring
  linarith [heq ▸ this]

lemma log1p_sub_nonneg {b : ℝ} (hb0 : 0 ≤ b) (hb1 : b < 1) :
    0 ≤ log1p b - log1p (-b) := by
  have h := le_log1p_sub hb0 hb1
  have : 0 ≤ 2 * b / (1 + b) := by
    apply div_nonneg (by linarith) (by linarith)
  linarith

lemma sigmaPP_below {s : ℝ} (hs : s < 4 * me2) : sigmaPP s = 0 := by
  rw [sigmaPP, if_pos hs]

lemma sigmaPP_nonneg {s : ℝ} (hs : 4 * me2 ≤ s) : 0 ≤ sigmaPP s := by
  have hme2 := me2_pos
  have hs0 : 0 < s := lt_of_lt_of_le (by positivity) hs
  have hratio0 : 0 < 4 * me2 / s := by positivity
  have hratio1 : 4 * me2 / s ≤ 1 := (div_le_one hs0).2 hs
  set b := Real.sqrt (1 - 4 * me2 / s) with hbdef
  have hb2 : b ^ 2 = 1 - 4 * me2 / s := Real.sq_sqrt (by linarith)
  have hb0 : 0 ≤ b := Real.sqrt_nonneg _
  have hb1 : b < 1 := by nlinarith [hb2]
  have hform : sigmaPP s = sigmaThomson * 3 / 16 * (1 - b ^ 2) *
      ((3 - b ^ 4) * (log1p b - log1p (-b)) - 2 * b * (2 - b ^ 2)) := by
    rw [sigmaPP, if_neg (not_lt.2 hs)]
  rw [hform]
  have hL := le_log1p_sub hb0 hb1
  have h3 : (0:ℝ) ≤ 3 - b ^ 4 := by nlinarith
  have h1b : (0:ℝ) < 1 + b := by linarith
  have hkey : 2 * b * (2 - b ^ 2) ≤ (3 - b ^ 4) * (2 * b / (1 + b)) := by
    rw [mul_div_assoc', le_div_iff h1b]
    nlinarith [mul_nonneg hb0 (sq_nonneg (1 - b)),
      mul_nonneg (mul_nonneg hb0 (pow_nonneg hb0 3)) (sub_nonneg.2 hb1.le)]
  have hmain : 0 ≤ (3 - b ^ 4) * (log1p b - log1p (-b)) - 2 * b * (2 - b ^ 2) := by
    have := mul_le_mul_of_nonneg_left hL h3
    linarith
  have hcoef : 0 ≤ sigmaThomson * 3 / 16 * (1 - b ^ 2) := by
    apply mul_nonneg
    · have := sigmaThomson_pos
      positivity
    · rw [hb2]; linarith
  exact mul_nonneg hcoef hmain

lemma sigmaDPP_below {s : ℝ} (hs : s < 16 * me2) : sigmaDPP s = 0 := by
  rw [sigmaDPP, if_pos hs]

lemma sigmaDPP_nonneg {s : ℝ} (hs : 16 * me2 ≤ s) : 0 ≤ sigmaDPP s := by
  rw [sigmaDPP, if_neg (not_lt.2 hs)]
  apply mul_nonneg (by norm_num)
  exact (even_iff_two_dvd.2 (by norm_num)).pow_nonneg _

lemma sigmaICS_below {s : ℝ} (hs : s < me2) : sigmaICS s = 0 := by
  rw [sigmaICS, if_pos hs]

/-- Above the threshold all divisors of the `sigmaICS` body are non-zero, so
the checked Python semantics returns exactly the real-embedding value. -/
lemma sigmaICSchecked_ok {s : ℝ} (hs : me2 < s) :
    sigmaICSchecked s = Except.ok (sigmaICS s) := by
  have hme2 := me2_pos
  have hs0 : 0 < s := hme2.trans hs
  have hsum : (0:ℝ) < s + me2 := by linarith
  have hb : 0 < (s - me2) / (s + me2) := div_pos (by linarith) hsum
  have hcond : ¬((s - me2) / (s + me2) = 0 ∨ 1 + (s - me2) / (s + me2) = 0 ∨
      ((s - me2) / (s + me2)) ^ 2 = 0 ∨ s = 0) := by
    push_neg
    exact ⟨hb.ne', by positivity, (pow_pos hb 2).ne', hs0.ne'⟩
  rw [sigmaICSchecked, if_neg (not_lt.2 hs.le), if_neg hsum.ne',
    sigmaICS, if_neg (not_lt.2 hs.le)]
  simp only [if_neg hcond]

/-- At exactly the threshold the source computes `b = 0` and then `2 / b`:
the checked semantics raises `ZeroDivisionError`. -/
lemma sigmaICSchecked_at_threshold :
    sigmaICSchecked me2 = Except.error PyError.zeroDivisionError := by
  have hme2 := me2_pos
  rw [sigmaICSchecked, if_neg (lt_irrefl me2),
    if_neg (show (0:ℝ) < me2 + me2 from by linarith).ne']
  simp

lemma sigmaICS_nonneg {s : ℝ} (hs : me2 < s) : 0 ≤ sigmaICS s := by
  have hme2 := me2_pos
  have hs0 : 0 < s := hme2.trans hs
  set b := (s - me2) / (s + me2) with hbdef
  have hb0 : 0 < b := div_pos (by linarith) (by linarith)
  have hb1 : b < 1 := (div_lt_one (by linarith)).2 (by linarith)
  have hform : sigmaICS s = sigmaThomson * 3 / 8 * me2 / s / b *
      (2 / b / (1 + b) * (2 + 2 * b - b ^ 2 - 2 * b ^ 3) -
       (2 - 3 * b ^ 2 - b ^ 3) / b ^ 2 * (log1p b - log1p (-b))) := by
    rw [sigmaICS, if_neg (not_lt.2 hs.le)]
  rw [hform]
  have h1b : (0:ℝ) < 1 + b := by linarith
  have h1mb2 : (0:ℝ) < 1 - b ^ 2 := by nlinarith
  have hL0 := log1p_sub_nonneg hb0.le hb1
  have hLub := log1p_sub_le hb0.le hb1
  have hposA : 0 ≤ 2 + 2 * b - b ^ 2 - 2 * b ^ 3 := by nlinarith
  have hAB : (2 - 3 * b ^ 2 - b ^ 3) / b ^ 2 * (log1p b - log1p (-b)) ≤
      2 / b / (1 + b) * (2 + 2 * b - b ^ 2 - 2 * b ^ 3) := by
    rcases le_or_lt (2 - 3 * b ^ 2 - b ^ 3) 0 with hc | hc
    · have hB : (2 - 3 * b ^ 2 - b ^ 3) / b ^ 2 * (log1p b - log1p (-b)) ≤ 0 :=
        mul_nonpos_of_nonpos_of_nonneg (div_nonpos_of_nonpos_of_nonneg hc (sq_nonneg b)) hL0
      have hA : 0 ≤ 2 / b / (1 + b) * (2 + 2 * b - b ^ 2 - 2 * b ^ 3) := by
        apply mul_nonneg _ hposA
        apply div_nonneg (div_nonneg (by norm_num) hb0.le) h1b.le
      linarith
    · have hstep1 : (2 - 3 * b ^ 2 - b ^ 3) / b ^ 2 * (log1p b - log1p (-b)) ≤
          (2 - 3 * b ^ 2 - b ^ 3) / b ^ 2 * (2 * b / (1 - b ^ 2)) :=
        mul_le_mul_of_nonneg_left hLub (div_nonneg hc.le (sq_nonneg b))
      have hstep2 : (2 - 3 * b ^ 2 - b ^ 3) / b ^ 2 * (2 * b / (1 - b ^ 2)) ≤
          2 / b / (1 + b) * (2 + 2 * b - b ^ 2 - 2 * b ^ 3) := by
        rw [div_mul_div_comm, div_div, div_mul_eq_mul_div,
          div_le_div_iff (mul_pos (pow_pos hb0 2) h1mb2) (mul_pos hb0 h1b)]
        nlinarith [pow_pos hb0 6, pow_pos hb0 7]
      linarith
  have hcoef : 0 ≤ sigmaThomson * 3 / 8 * me2 / s / b := by
    have := sigmaThomson_pos
    positivity
  exact mul_nonneg hcoef (by linarith)

lemma sigmaTPP_below {s : ℝ} (hs0 : 0 < s)
    (hs : s < me2 * Real.exp ((218 / 27) / (28 / 9))) : sigmaTPP s = 0 := by
  have hme2 := me2_pos
  have hlog : Real.log (s / me2) < (218 / 27) / (28 / 9) := by
    have hlt : s / me2 < Real.exp ((218 / 27) / (28 / 9)) := by
      rw [div_lt_iff hme2]
      linarith [mul_comm me2 (Real.exp ((218 / 27) / (28 / 9)))]
    calc Real.log (s / me2) < Real.log (Real.exp ((218 / 27) / (28 / 9))) :=
          Real.log_lt_log (by positivity) hlt
      _ = (218 / 27) / (28 / 9) := Real.log_exp _
  have hbeta : 28 / 9 * Real.log (s / me2) - 218 / 27 < 0 := by nlinarith
  rw [sigmaTPP, if_pos hbeta]

lemma sigmaTPP_nonneg {s : ℝ} (hs : me2 * Real.exp ((218 / 27) / (28 / 9)) ≤ s) :
    0 ≤ sigmaTPP s := by
  have hme2 := me2_pos
  have hlog : (218 / 27) / (28 / 9) ≤ Real.log (s / me2) := by
    rw [Real.le_log_iff_exp_le]
    · rw [le_div_iff hme2]
      linarith [mul_comm me2 (Real.exp ((218 / 27) / (28 / 9)))]
    · exact div_pos
        (by linarith [mul_pos hme2 (Real.exp_pos ((218 / 27) / (28 / 9)))]) hme2
  have hbeta : 0 ≤ 28 / 9 * Real.log (s / me2) - 218 / 27 := by nlinarith
  rw [sigmaTPP, if_neg (not_lt.2 hbeta)]
  have hpi := Real.pi_pos
  have hST := sigmaThomson_pos
  have hal := alpha_pos
  apply mul_nonneg _ hbeta
  positivity

/-- C1 counterexample: at the inverse-Compton threshold `s = me2` the source
does not return a value at all, let alone one `≥ 0`: it computes `b = 0` and
then divides `2 / b`, raising `ZeroDivisionError` (nan under numpy scalars). -/
theorem sigmaICS_threshold_zero_division_cex :
    sigmaICSchecked me2 = Except.error PyError.zeroDivisionError :=
  sigmaICSchecked_at_threshold

/-- C1 (amended): every catalogued cross section vanishes strictly below its
documented threshold (`4 me2`, `16 me2`, `me2`, and the zero crossing of the
triplet-production beta parameter) and is non-negative above it — at and
above threshold for `sigmaPP`, `sigmaDPP` and `sigmaTPP`, but only strictly
above threshold for `sigmaICS`, whose body divides by `b = 0` at exactly
`s = me2`.  For `sigmaTPP` the below-threshold statement is restricted to
physical arguments `0 < s`, the domain on which the real embedding of
`np.log` coincides with the code. -/
theorem crossSections_threshold_nonneg_amended :
    (∀ s : ℝ, s < 4 * me2 → sigmaPP s = 0) ∧
    (∀ s : ℝ, 4 * me2 ≤ s → 0 ≤ sigmaPP s) ∧
    (∀ s : ℝ, s < 16 * me2 → sigmaDPP s = 0) ∧
    (∀ s : ℝ, 16 * me2 ≤ s → 0 ≤ sigmaDPP s) ∧
    (∀ s : ℝ, s < me2 → sigmaICS s = 0) ∧
    (∀ s : ℝ, me2 < s → sigmaICSchecked s = Except.ok (sigmaICS s) ∧ 0 ≤ sigmaICS s) ∧
    (∀ s : ℝ, 0 < s → s < me2 * Real.exp ((218 / 27) / (28 / 9)) → sigmaTPP s = 0) ∧
    (∀ s : ℝ, me2 * Real.exp ((218 / 27) / (28 / 9)) ≤ s → 0 ≤ sigmaTPP s) :=
  ⟨fun _ h => sigmaPP_below h, fun _ h => sigmaPP_nonneg h,
   fun _ h => sigmaDPP_below h, fun _ h => sigmaDPP_nonneg h,
   fun _ h => sigmaICS_below h,
   fun _ h => ⟨sigmaICSchecked_ok h, sigmaICS_nonneg h⟩,
   fun _ h0 h => sigmaTPP_below h0 h, fun _ h => sigmaTPP_nonneg h⟩

/-- C1 witness: the eight amended statements instantiated at concrete
arguments on both sides of each threshold (strictly above for `sigmaICS`). -/
theorem crossSections_threshold_nonneg_amended_witness :
    sigmaPP me2 = 0 ∧ 0 ≤ sigmaPP (4 * me2) ∧
    sigmaDPP me2 = 0 ∧ 0 ≤ sigmaDPP (16 * me2) ∧
    sigmaICS (me2 / 2) = 0 ∧
    (sigmaICSchecked (2 * me2) = Except.ok (sigmaICS (2 * me2)) ∧
      0 ≤ sigmaICS (2 * me2)) ∧
    sigmaTPP me2 = 0 ∧ 0 ≤ sigmaTPP (me2 * Real.exp ((218 / 27) / (28 / 9))) := by
  obtain ⟨h1, h2, h3, h4, h5, h6, h7, h8⟩ := crossSections_threshold_nonneg_amended
  have hme2 := me2_pos
  refine ⟨h1 me2 (by linarith), h2 (4 * me2) le_rfl,
    h3 me2 (by linarith), h4 (16 * me2) le_rfl,
    h5 (me2 / 2) (by linarith), h6 (2 * me2) (by linarith),
    h7 me2 hme2 ?_, h8 _ le_rfl⟩
  have hexp : (1:ℝ) < Real.exp ((218 / 27) / (28 / 9)) := by
    rw [Real.one_lt_exp_iff]; norm_num
  nlinarith

/-- C10: the stable logarithmic-difference form used by `sigmaPP` agrees with
the direct-logarithm reference form: `log1p b − log1p (−b) = log((1+b)/(1−b))`
for `0 ≤ b < 1`, hence `sigmaPP` equals the pair-production formula written
with the direct logarithm for every `s ≥ 4 me2`. -/
theorem sigmaPP_stable_log_equiv :
    (∀ b : ℝ, 0 ≤ b → b < 1 →
      log1p b - log1p (-b) = Real.log ((1 + b) / (1 - b))) ∧
    (∀ s : ℝ, 4 * me2 ≤ s → sigmaPP s = sigmaPP_direct s) := by
  constructor
  · exact fun b hb0 hb1 => log1p_sub_eq_log_div hb0 hb1
  · intro s hs
    have hme2 := me2_pos
    have hs0 : 0 < s := lt_of_lt_of_le (by positivity) hs
    have hratio0 : 0 < 4 * me2 / s := by positivity
    have hratio1 : 4 * me2 / s ≤ 1 := (div_le_one hs0).2 hs
    set b := Real.sqrt (1 - 4 * me2 / s) with hbdef
    have hb2 : b ^ 2 = 1 - 4 * me2 / s := Real.sq_sqrt (by linarith)
    have hb0 : 0 ≤ b := Real.sqrt_nonneg _
    have hb1 : b < 1 := by nlinarith [hb2]
    have h1 : sigmaPP s = sigmaThomson * 3 / 16 * (1 - b ^ 2) *
        ((3 - b ^ 4) * (log1p b - log1p (-b)) - 2 * b * (2 - b ^ 2)) := by
      rw [sigmaPP, if_neg (not_lt.2 hs)]
    have h2 : sigmaPP_direct s = sigmaThomson * 3 / 16 * (1 - b ^ 2) *
        ((3 - b ^ 4) * Real.log ((1 + b) / (1 - b)) - 2 * b * (2 - b ^ 2)) := by
      rw [sigmaPP_direct, if_neg (not_lt.2 hs)]
    rw [h1, h2, log1p_sub_eq_log_div hb0 hb1]

/-- C10 witness: the logarithm identity at `b = 1/2` and the cross-section
equality at the threshold `s = 4 me2`. -/
theorem sigmaPP_stable_log_equiv_witness :
    (log1p (1 / 2) - log1p (-(1 / 2)) =
      Real.log ((1 + 1 / 2) / (1 - 1 / 2))) ∧
    sigmaPP (4 * me2) = sigmaPP_direct (4 * me2) :=
  ⟨sigmaPP_stable_log_equiv.1 (1 / 2) (by norm_num) (by norm_num),
   sigmaPP_stable_log_equiv.2 (4 * me2) le_rfl⟩

lemma densityEmin_pos : 0 < densityEmin := by norm_num [densityEmin, eV]

/-- Every lower bound of the density grid lies between `densityEmin`
and the field's maximum photon energy. -/
lemma densityAlphaGrid_bounds {field : PhotonField}
    (hEmax : densityEmin ≤ field.getEmax) {a : ℝ}
    (ha : a ∈ densityAlphaGrid field) :
    densityEmin ≤ a ∧ a ≤ field.getEmax := by
  have hEm0 : (0:ℝ) < densityEmin := densityEmin_pos
  have hEx0 : (0:ℝ) < field.getEmax := lt_of_lt_of_le hEm0 hEmax
  simp only [densityAlphaGrid, logspace, List.mem_map, List.mem_range] at ha
  obtain ⟨i, hi, rfl⟩ := ha
  set l1 := Real.logb 10 densityEmin with hl1
  set l2 := Real.logb 10 field.getEmax with hl2
  have hl : l1 ≤ l2 := Real.logb_le_logb_of_le (by norm_num) hEm0 hEmax
  have hden : ((10000:ℕ):ℝ) - 1 = 9999 := by norm_num
  have hi' : (i:ℝ) ≤ 9999 := by
    have : i ≤ 9999 := Nat.lt_succ_iff.mp hi
    exact_mod_cast this
  have hi0 : (0:ℝ) ≤ (i:ℝ) := Nat.cast_nonneg i
  have hfrac0 : 0 ≤ (l2 - l1) * i / (((10000:ℕ):ℝ) - 1) := by
    rw [hden]
    exact div_nonneg (mul_nonneg (by linarith) hi0) (by norm_num)
  have hfrac1 : (l2 - l1) * i / (((10000:ℕ):ℝ) - 1) ≤ l2 - l1 := by
    rw [hden, div_le_iff (by norm_num : (0:ℝ) < 9999)]
    nlinarith
  constructor
  · have h10 : (10:ℝ) ^ l1 ≤ (10:ℝ) ^ (l1 + (l2 - l1) * i / (((10000:ℕ):ℝ) - 1)) :=
      (Real.rpow_le_rpow_left_iff (by norm_num)).2 (by linarith)
    rwa [hl1, Real.rpow_logb (by norm_num) (by norm_num) hEm0] at h10
  · have h10 : (10:ℝ) ^ (l1 + (l2 - l1) * i / (((10000:ℕ):ℝ) - 1)) ≤ (10:ℝ) ^ l2 :=
      (Real.rpow_le_rpow_left_iff (by norm_num)).2 (by linarith)
    rwa [hl2, Real.rpow_logb (by norm_num) (by norm_num) hEx0] at h10

/-- C8: assuming the field's density is non-negative (and integrable over the
resolved range), the density-integral table computed with the exact-quadrature
backend is monotonically non-increasing in the lower bound: for tabulated
entries with `p.1 ≤ q.1`, the stored value at `q` is at most the one at `p`. -/
theorem densityIntegralTable_antitone (field : PhotonField)
    (hEmax : densityEmin ≤ field.getEmax)
    (hd : ∀ E : ℝ, 0 ≤ field.getDensity E)
    (hi : IntervalIntegrable (densityIntegrand field) MeasureTheory.volume
      densityEmin field.getEmax) :
    ∀ p ∈ densityIntegralTable scipyQuad field,
      ∀ q ∈ densityIntegralTable scipyQuad field, p.1 ≤ q.1 → q.2 ≤ p.2 := by
  intro p hp q hq hpq
  rw [densityIntegralTable, List.mem_map] at hp hq
  obtain ⟨a, hamem, rfl⟩ := hp
  obtain ⟨c, hcmem, rfl⟩ := hq
  obtain ⟨ha1, ha2⟩ := densityAlphaGrid_bounds hEmax hamem
  obtain ⟨hc1, hc2⟩ := densityAlphaGrid_bounds hEmax hcmem
  simp only [scipyQuad] at hpq ⊢
  apply intervalIntegral.integral_mono_interval hpq hc2 le_rfl
  · exact MeasureTheory.ae_of_all _ fun x => div_nonneg (hd x) (sq_nonneg x)
  · refine hi.mono_set ?_
    rw [Set.uIcc_of_le (ha2 : a ≤ field.getEmax),
      Set.uIcc_of_le (hEmax : densityEmin ≤ field.getEmax)]
    exact Set.Icc_subset_Icc ha1 le_rfl

/-- C8 witness: the hypotheses hold at a concrete zero-density field, and the
theorem applies there. -/
theorem densityIntegralTable_antitone_witness :
    densityEmin ≤ demoField.getEmax ∧
    (∀ E : ℝ, 0 ≤ demoField.getDensity E) ∧
    IntervalIntegrable (densityIntegrand demoField) MeasureTheory.volume
      densityEmin demoField.getEmax ∧
    ∀ p ∈ densityIntegralTable scipyQuad demoField,
      ∀ q ∈ densityIntegralTable scipyQuad demoField, p.1 ≤ q.1 → q.2 ≤ p.2 := by
  have h1 : densityEmin ≤ demoField.getEmax := by
    norm_num [densityEmin, eV, demoField]
  have h2 : ∀ E : ℝ, 0 ≤ demoField.getDensity E := fun E => le_rfl
  have hzero : densityIntegrand demoField = fun _ => (0:ℝ) :=
    funext fun E => by simp [densityIntegrand, demoField]
  have h3 : IntervalIntegrable (densityIntegrand demoField) MeasureTheory.volume
      densityEmin demoField.getEmax := by
    rw [hzero]
    exact intervalIntegrable_const
  exact ⟨h1, h2, h3, densityIntegralTable_antitone demoField h1 h2 h3⟩

/-- The value of `interp` is bounded below by the first node's value when the
node list is sorted with non-decreasing values. -/
lemma head_le_interp (x : ℝ) :
    ∀ (p : ℝ × ℝ) (l : List (ℝ × ℝ)),
      List.Chain' (fun p q : ℝ × ℝ => p.1 < q.1 ∧ p.2 ≤ q.2) (p :: l) →
      p.2 ≤ interp x (p :: l) := by
  intro p l
  induction l generalizing p with
  | nil =>
    intro _
    obtain ⟨x0, y0⟩ := p
    simp [interp]
  | cons q rs ih =>
    intro hch
    rw [List.chain'_cons] at hch
    obtain ⟨⟨hx01, hy01⟩, hch'⟩ := hch
    obtain ⟨x0, y0⟩ := p
    obtain ⟨x1, y1⟩ := q
    dsimp only at hx01 hy01
    simp only [interp]
    split_ifs with h1 h2
    · exact le_rfl
    · have hd : (0:ℝ) < x1 - x0 := by linarith
      have hnn : 0 ≤ (y1 - y0) * (x - x0) / (x1 - x0) :=
        div_nonneg (mul_nonneg (by linarith) (by linarith [not_lt.1 h1])) hd.le
      linarith
    · exact le_trans hy01 (ih (x1, y1) hch')

/-- Linear interpolation is monotone in the query point over a sorted node
list with non-decreasing values. -/
lemma interp_mono {x xp : ℝ} (hxx : x ≤ xp) :
    ∀ pts : List (ℝ × ℝ),
      List.Chain' (fun p q : ℝ × ℝ => p.1 < q.1 ∧ p.2 ≤ q.2) pts →
      interp x pts ≤ interp xp pts := by
  intro pts
  induction pts with
  | nil => intro _; simp [interp]
  | cons p l ih =>
    cases l with
    | nil =>
      intro _
      obtain ⟨x0, y0⟩ := p
      simp [interp]
    | cons q rs =>
      intro hch
      have hch0 := hch
      rw [List.chain'_cons] at hch
      obtain ⟨⟨hx01, hy01⟩, hch'⟩ := hch
      obtain ⟨x0, y0⟩ := p
      obtain ⟨x1, y1⟩ := q
      dsimp only at hx01 hy01
      have hd : (0:ℝ) < x1 - x0 := by linarith
      by_cases h1 : x < x0
      · have hxf : interp x ((x0, y0) :: (x1, y1) :: rs) = y0 := by
          simp only [interp]
          rw [if_pos h1]
        rw [hxf]
        exact head_le_interp xp (x0, y0) ((x1, y1) :: rs) hch0
      · push_neg at h1
        by_cases h2 : x ≤ x1
        · have hxf : interp x ((x0, y0) :: (x1, y1) :: rs) =
              y0 + (y1 - y0) * (x - x0) / (x1 - x0) := by
            simp only [interp]
            rw [if_neg (not_lt.2 h1), if_pos h2]
          by_cases h3 : xp ≤ x1
          · have hxpf : interp xp ((x0, y0) :: (x1, y1) :: rs) =
                y0 + (y1 - y0) * (xp - x0) / (x1 - x0) := by
              simp only [interp]
              rw [if_neg (not_lt.2 (by linarith)), if_pos h3]
            rw [hxf, hxpf]
            have hstep : (y1 - y0) * (x - x0) ≤ (y1 - y0) * (xp - x0) :=
              mul_le_mul_of_nonneg_left (by linarith) (by linarith)
            have hdiv : (y1 - y0) * (x - x0) / (x1 - x0) ≤
                (y1 - y0) * (xp - x0) / (x1 - x0) :=
              div_le_div_of_le_of_nonneg hstep hd.le
            linarith
          · push_neg at h3
            have hxpf : interp xp ((x0, y0) :: (x1, y1) :: rs) =
                interp xp ((x1, y1) :: rs) := by
              simp only [interp]
              rw [if_neg (not_lt.2 (by linarith)), if_neg (not_le.2 h3)]
            have ht0 : 0 ≤ (x - x0) / (x1 - x0) := div_nonneg (by linarith) hd.le
            have ht1 : (x - x0) / (x1 - x0) ≤ 1 := (div_le_one hd).2 (by linarith)
            have hmul : (y1 - y0) * ((x - x0) / (x1 - x0)) ≤ (y1 - y0) * 1 :=
              mul_le_mul_of_nonneg_left ht1 (by linarith)
            have hub : y0 + (y1 - y0) * (x - x0) / (x1 - x0) ≤ y1 := by
              rw [mul_div_assoc]
              linarith
            rw [hxf, hxpf]
            exact hub.trans (head_le_interp xp (x1, y1) rs hch')
        · push_neg at h2
          have hxf : interp x ((x0, y0) :: (x1, y1) :: rs) =
              interp x ((x1, y1) :: rs) := by
            simp only [interp]
            rw [if_neg (not_lt.2 h1), if_neg (not_le.2 h2)]
          have hxpf : interp xp ((x0, y0) :: (x1, y1) :: rs) =
              interp xp ((x1, y1) :: rs) := by
            simp only [interp]
            rw [if_neg (not_lt.2 (by linarith)), if_neg (not_le.2 (by linarith))]
          rw [hxf, hxpf]
          exact ih hch'

/-- Zipping a strictly increasing grid with a non-decreasing value row yields
a node list sorted with non-decreasing values. -/
lemma chain'_zip_lt_le :
    ∀ (xs ys : List ℝ), List.Chain' (· < ·) xs → List.Chain' (· ≤ ·) ys →
      List.Chain' (fun p q : ℝ × ℝ => p.1 < q.1 ∧ p.2 ≤ q.2) (xs.zip ys) := by
  intro xs
  induction xs with
  | nil => intro ys _ _; simp
  | cons a xs ih =>
    intro ys hx hy
    cases ys with
    | nil => simp
    | cons b ys =>
      rw [List.zip_cons_cons]
      cases xs with
      | nil => simp
      | cons a2 xs2 =>
        cases ys with
        | nil => simp
        | cons b2 ys2 =>
          rw [List.chain'_cons] at hx hy
          rw [List.zip_cons_cons, List.chain'_cons]
          exact ⟨⟨hx.1, hy.1⟩, ih (b2 :: ys2) hx.2 hy.2⟩

/-- C6: downsampling a monotone cumulative row by linear interpolation onto a
non-decreasing coarse grid yields a non-decreasing row: `np.interp` never
introduces non-monotonicity into a row that is non-decreasing over a strictly
increasing source grid. -/
theorem downsample_preserves_monotone (skin r skin_save : List ℝ)
    (hskin : List.Chain' (· < ·) skin)
    (hr : List.Chain' (· ≤ ·) r)
    (hsave : List.Chain' (· ≤ ·) skin_save) :
    List.Chain' (· ≤ ·) (downsampleRow skin_save skin r) := by
  rw [downsampleRow, List.chain'_map]
  exact hsave.imp fun a b hab =>
    interp_mono hab (skin.zip r) (chain'_zip_lt_le skin r hskin hr)

/-- C6 witness: concrete monotone data. -/
theorem downsample_preserves_monotone_witness :
    List.Chain' (· < ·) [(0:ℝ), 1] ∧ List.Chain' (· ≤ ·) [(0:ℝ), 2] ∧
    List.Chain' (· ≤ ·) [(0:ℝ), 1 / 2, 1] ∧
    List.Chain' (· ≤ ·) (downsampleRow [(0:ℝ), 1 / 2, 1] [0, 1] [0, 2]) := by
  have h1 : List.Chain' (· < ·) [(0:ℝ), 1] := by
    simp [List.chain'_cons]
  have h2 : List.Chain' (· ≤ ·) [(0:ℝ), 2] := by
    simp [List.chain'_cons]
  have h3 : List.Chain' (· ≤ ·) [(0:ℝ), 1 / 2, 1] := by
    simp [List.chain'_cons]
    norm_num
  exact ⟨h1, h2, h3, downsample_preserves_monotone [0, 1] [0, 2] [0, 1 / 2, 1] h1 h2 h3⟩

/-- At a node of a strictly sorted node list, `interp` returns the node's
value exactly. -/
lemma interp_at_node :
    ∀ pts : List (ℝ × ℝ),
      List.Pairwise (fun p q : ℝ × ℝ => p.1 < q.1) pts →
      ∀ p ∈ pts, interp p.1 pts = p.2 := by
  intro pts
  induction pts with
  | nil => intro _ p hp; simp at hp
  | cons p0 l ih =>
    intro hpw p hp
    rw [List.pairwise_cons] at hpw
    obtain ⟨hhead, htail⟩ := hpw
    rcases List.mem_cons.1 hp with rfl | hpl
    · cases l with
      | nil =>
        obtain ⟨x0, y0⟩ := p
        simp [interp]
      | cons p1 rs =>
        obtain ⟨x0, y0⟩ := p
        obtain ⟨x1, y1⟩ := p1
        have h01 : x0 < x1 := hhead (x1, y1) (List.mem_cons_self _ _)
        simp only [interp]
        rw [if_neg (lt_irrefl x0), if_pos h01.le, sub_self, mul_zero, zero_div,
          add_zero]
    · cases l with
      | nil => simp at hpl
      | cons p1 rs =>
        rcases List.mem_cons.1 hpl with rfl | hprs
        · obtain ⟨x0, y0⟩ := p0
          obtain ⟨x1, y1⟩ := p
          have h01 : x0 < x1 := hhead (x1, y1) (List.mem_cons_self _ _)
          simp only [interp]
          rw [if_neg (not_lt.2 h01.le), if_pos le_rfl, mul_div_assoc,
            div_self (ne_of_gt (sub_pos.2 h01)), mul_one]
          ring
        · obtain ⟨x0, y0⟩ := p0
          obtain ⟨x1, y1⟩ := p1
          have h0p : x0 < p.1 := hhead p hpl
          have h1p : x1 < p.1 := (List.pairwise_cons.1 htail).1 p hprs
          simp only [interp]
          rw [if_neg (not_lt.2 h0p.le), if_neg (not_le.2 h1p)]
          exact ih htail p (List.mem_cons_of_mem _ hprs)

/-- Zipping preserves strict sortedness of the grid components. -/
lemma pairwise_fst_zip :
    ∀ (xs ys : List ℝ), List.Pairwise (· < ·) xs →
      List.Pairwise (fun p q : ℝ × ℝ => p.1 < q.1) (xs.zip ys) := by
  intro xs
  induction xs with
  | nil => intro ys _; simp
  | cons a xs ih =>
    intro ys h
    cases ys with
    | nil => simp
    | cons b ys =>
      rw [List.pairwise_cons] at h
      rw [List.zip_cons_cons, List.pairwise_cons]
      refine ⟨?_, ih ys h.2⟩
      intro q hq
      obtain ⟨q1, q2⟩ := q
      exact h.1 q1 (List.mem_zip hq).1

/-- Membership in the diagonal of a self-zip. -/
lemma mem_zip_self : ∀ {l : List ℝ} {x : ℝ}, x ∈ l → (x, x) ∈ l.zip l := by
  intro l
  induction l with
  | nil => intro x h; simp at h
  | cons a t ih =>
    intro x h
    rw [List.zip_cons_cons]
    rcases List.mem_cons.1 h with rfl | h'
    · exact List.mem_cons_self _ _
    · exact List.mem_cons_of_mem _ (ih h')

/-- The high-resolution `s_kin` grid is strictly increasing. -/
lemma skinFineGrid_pairwise : List.Pairwise (· < ·) skinFineGrid := by
  rw [skinFineGrid, logspace, List.map_map, List.pairwise_map]
  refine List.Pairwise.imp ?_ (List.pairwise_lt_range _)
  intro i j hij
  dsimp only [Function.comp]
  have hij' : (i:ℝ) < j := by exact_mod_cast hij
  have hden : ((380000 + 1 : ℕ):ℝ) - 1 = 380000 := by norm_num
  have hexp : (4:ℝ) + (23 - 4) * (i:ℝ) / (((380000 + 1 : ℕ):ℝ) - 1) <
      4 + (23 - 4) * (j:ℝ) / (((380000 + 1 : ℕ):ℝ) - 1) := by
    rw [hden]
    linarith
  exact mul_lt_mul_of_pos_right
    ((Real.rpow_lt_rpow_left_iff (by norm_num)).2 hexp) (pow_pos eV_pos 2)

lemma skinFineFiltered_pairwise (m : ℝ) :
    List.Pairwise (· < ·) (skinFineFiltered m) :=
  List.Pairwise.filter _ skinFineGrid_pairwise

/-- Every point of the coarse `s_kin` grid is a point of the fine grid
(`380000` is a multiple of `190`). -/
lemma skinSaveGrid_subset_fine : ∀ x ∈ skinSaveGrid, x ∈ skinFineGrid := by
  intro x hx
  simp only [skinSaveGrid, logspace, List.mem_map, List.mem_range] at hx
  obtain ⟨a, ⟨i, hi, rfl⟩, rfl⟩ := hx
  simp only [skinFineGrid, logspace, List.mem_map, List.mem_range]
  refine ⟨(10:ℝ) ^ ((4:ℝ) + (23 - 4) * ((2000 * i : ℕ):ℝ) /
    (((380000 + 1 : ℕ):ℝ) - 1)), ⟨2000 * i, by omega, rfl⟩, ?_⟩
  have he : (4:ℝ) + (23 - 4) * ((2000 * i : ℕ):ℝ) / (((380000 + 1 : ℕ):ℝ) - 1)
      = 4 + (23 - 4) * (i:ℝ) / (((190 + 1 : ℕ):ℝ) - 1) := by
    push_cast
    ring
  rw [he]

lemma skinSaveFiltered_subset (m : ℝ) :
    ∀ x ∈ skinSaveFiltered m, x ∈ skinFineFiltered m := by
  intro x hx
  rw [skinSaveFiltered, List.mem_filter] at hx
  rw [skinFineFiltered, List.mem_filter]
  exact ⟨skinSaveGrid_subset_fine x hx.1, hx.2⟩

/-- C7: every point of the filtered coarse `s_kin` grid is a point of the
filtered fine grid, and linear interpolation of a row over the fine grid is
exact at every fine-grid node — in particular the downsampled value at every
retained coarse column equals the source row's value there. -/
theorem downsample_grid_inclusion_exact :
    (∀ m : ℝ, ∀ x ∈ skinSaveFiltered m, x ∈ skinFineFiltered m) ∧
    (∀ m : ℝ, ∀ r : List ℝ, ∀ x ∈ skinSaveFiltered m, ∀ y : ℝ,
      (x, y) ∈ (skinFineFiltered m).zip r →
      interp x ((skinFineFiltered m).zip r) = y) := by
  constructor
  · exact fun m => skinSaveFiltered_subset m
  · intro m r x _ y hzip
    exact interp_at_node _ (pairwise_fst_zip _ r (skinFineFiltered_pairwise m)) (x, y) hzip

/-- C7 witness: the first retained coarse point (with threshold 0) lies in the
fine grid, and interpolation at that node over a self-zipped row is exact. -/
theorem downsample_grid_inclusion_exact_witness :
    ((10:ℝ) ^ ((4:ℝ) + (23 - 4) * ((0:ℕ):ℝ) / (((190 + 1 : ℕ):ℝ) - 1)) * eV ^ 2
      ∈ skinFineFiltered 0) ∧
    interp ((10:ℝ) ^ ((4:ℝ) + (23 - 4) * ((0:ℕ):ℝ) / (((190 + 1 : ℕ):ℝ) - 1)) * eV ^ 2)
      ((skinFineFiltered 0).zip (skinFineFiltered 0))
      = (10:ℝ) ^ ((4:ℝ) + (23 - 4) * ((0:ℕ):ℝ) / (((190 + 1 : ℕ):ℝ) - 1)) * eV ^ 2 := by
  have hx : (10:ℝ) ^ ((4:ℝ) + (23 - 4) * ((0:ℕ):ℝ) / (((190 + 1 : ℕ):ℝ) - 1)) * eV ^ 2
      ∈ skinSaveFiltered 0 := by
    rw [skinSaveFiltered, List.mem_filter]
    constructor
    · simp only [skinSaveGrid, logspace, List.mem_map, List.mem_range]
      exact ⟨_, ⟨0, by norm_num, rfl⟩, rfl⟩
    · rw [decide_eq_true_eq]
      exact mul_pos (Real.rpow_pos_of_pos (by norm_num) _) (pow_pos eV_pos 2)
  have h1 := downsample_grid_inclusion_exact.1 0 _ hx
  exact ⟨h1, downsample_grid_inclusion_exact.2 0 (skinFineFiltered 0) _ hx _
    (mem_zip_self h1)⟩

/-- Against `tinyField`, every base-grid energy is below `E_min` for pair
production, so the filtered energy grid is empty. -/
lemma processEnergyGrid_tiny_empty :
    processEnergyGrid .PP tinyField = Except.ok [] := by
  have hEm : getEmin .PP tinyField = Except.ok (4 * me2 / 4 / 1e-45) := rfl
  rw [processEnergyGrid, hEm]
  show Except.ok (baseEnergyGrid.filter fun e => decide (4 * me2 / 4 / 1e-45 < e))
    = Except.ok ([] : List ℝ)
  congr 1
  rw [List.filter_eq_nil]
  intro a ha
  simp only [baseEnergyGrid, logspace, List.mem_map, List.mem_range] at ha
  obtain ⟨v, ⟨i, hi, rfl⟩, rfl⟩ := ha
  simp only [decide_eq_true_eq, not_lt]
  have hi' : (i:ℝ) ≤ 280 := by
    have : i ≤ 280 := Nat.lt_succ_iff.mp hi
    exact_mod_cast this
  have hexp : (9:ℝ) + (23 - 9) * (i:ℝ) / (((281 : ℕ):ℝ) - 1) ≤ 23 := by
    have hden : (((281 : ℕ):ℝ) - 1) = 280 := by norm_num
    rw [hden]
    have h0 : (0:ℝ) ≤ (i:ℝ) := Nat.cast_nonneg i
    have hq : (23 - 9) * (i:ℝ) / 280 ≤ 14 := by
      rw [div_le_iff (by norm_num : (0:ℝ) < 280)]
      linarith
    linarith
  have h10 : (10:ℝ) ^ ((9:ℝ) + (23 - 9) * (i:ℝ) / (((281 : ℕ):ℝ) - 1)) ≤
      (10:ℝ) ^ (23:ℝ) :=
    (Real.rpow_le_rpow_left_iff (by norm_num)).2 hexp
  have h23 : (10:ℝ) ^ (23:ℝ) = (10:ℝ) ^ (23:ℕ) := by
    rw [show ((23:ℝ)) = ((23:ℕ):ℝ) from by norm_num, Real.rpow_natCast]
  have hbound : (10:ℝ) ^ (23:ℕ) * eV ≤ 4 * me2 / 4 / 1e-45 := by
    norm_num [me2, eV]
  calc (10:ℝ) ^ ((9:ℝ) + (23 - 9) * (i:ℝ) / (((281 : ℕ):ℝ) - 1)) * eV
      ≤ (10:ℝ) ^ (23:ℕ) * eV := by
        rw [← h23]
        exact mul_le_mul_of_nonneg_right h10 eV_pos.le
    _ ≤ 4 * me2 / 4 / 1e-45 := hbound

/-- C9 counterexample: at the concrete pair `(.PP, tinyField)` the energy
grid empties out after threshold filtering and the pipeline fails with an
uncaught `IndexError` from the subscript `E[0]`, not with a dedicated
`EmptyDomain` error (no such error exists in the code). -/
theorem processSkinMin_indexError_cex :
    processSkinMin .PP tinyField = Except.error PyError.indexError := by
  rw [processSkinMin, processEnergyGrid_tiny_empty]
  rfl

/-- C9 (amended): whenever no particle energies remain after threshold
filtering, the run fails with the generic `IndexError` raised by `E[0]`. -/
theorem processSkinMin_empty_indexError (sigma : ProcName) (field : PhotonField)
    (h : processEnergyGrid sigma field = Except.ok []) :
    processSkinMin sigma field = Except.error PyError.indexError := by
  cases sigma with
  | PP => rw [processSkinMin, h]; rfl
  | DPP => rw [processSkinMin, h]; rfl
  | ICS => rw [processSkinMin, h]; rfl
  | TPP => rw [processSkinMin, h]; rfl
  | unknown k => simp [processEnergyGrid, getEmin, getSmin, Except.map] at h

/-- C9 witness: the amended statement applied at `(.PP, tinyField)`. -/
theorem processSkinMin_empty_indexError_witness :
    processEnergyGrid .PP tinyField = Except.ok [] ∧
    processSkinMin .PP tinyField = Except.error PyError.indexError :=
  ⟨processEnergyGrid_tiny_empty,
   processSkinMin_empty_indexError .PP tinyField processEnergyGrid_tiny_empty⟩
